import Mathlib

/-!
Verification of the SIC asset-reconciliation program (src/main.py, src/itens.py)
against its natural-language specification.

The Python sources are shallowly embedded: strings are modelled as `String` /
`List Char`, Python dicts (which preserve insertion order) as association
lists, spreadsheet cell values as an inductive `Cell` type capturing Python
truthiness, and the imperative loops as folds.  All definitions are
executable.
-/

namespace SIC

/-! ## Python string primitives -/

/-- Python whitespace for `str.strip` and the regex class `\s`
(ASCII fragment: space, tab, newline, carriage return, vertical tab,
form feed). -/
def isPySpace (c : Char) : Bool :=
  c = ' ' || c = '\t' || c = '\n' || c = '\r' || c = '\x0b' || c = '\x0c'

/-- The regex class `\d` (ASCII decimal digits). -/
def isPyDigit (c : Char) : Bool :=
  c.isDigit

/-- Python `str.strip()` on a character list: drop whitespace from both
ends. -/
def pyStripList (cs : List Char) : List Char :=
  ((cs.dropWhile isPySpace).reverse.dropWhile isPySpace).reverse

/-- Python `str.strip()`. -/
def pyStrip (s : String) : String :=
  ⟨pyStripList s.data⟩

/-- Python `str.split(sep)` for a one-character separator (keeps empty
fragments, `"".split(sep) = [""]`). -/
def splitOnChar (sep : Char) : List Char → List (List Char)
  | [] => [[]]
  | c :: rest =>
    match splitOnChar sep rest with
    | [] => if c = sep then [[], []] else [[c]]
    | g :: gs => if c = sep then [] :: g :: gs else (c :: g) :: gs

/-- Python `sep.join(parts)` semantics on character lists. -/
def joinWith (sep : List Char) : List (List Char) → List Char
  | [] => []
  | [x] => x
  | x :: xs => x ++ sep ++ joinWith sep xs

/-- Python substring test `needle in hay` on character lists. -/
def listContains (hay needle : List Char) : Bool :=
  (List.range (hay.length + 1)).any (fun i => needle.isPrefixOf (hay.drop i))

/-- Python substring test `needle in hay` on strings. -/
def strContains (hay needle : String) : Bool :=
  listContains hay.data needle.data

/-- Python `str.lower()` (ASCII fragment). -/
def pyLowerList (cs : List Char) : List Char :=
  cs.map Char.toLower

/-- Python `str.upper()` (ASCII fragment). -/
def pyUpperList (cs : List Char) : List Char :=
  cs.map Char.toUpper

/-- Python `str.upper()` on strings. -/
def pyUpper (s : String) : String :=
  ⟨pyUpperList s.data⟩

/-- Python `str.endswith(suffix)`. -/
def strEndsWith (s suffix : String) : Bool :=
  suffix.data.isSuffixOf s.data

/-! ## src/itens.py — the report item extractor

`extract_items_from_pdf` strips each text line, skips empty lines and
"número de série" header lines, and applies the anchored regex
`^(\d{6,})\s+(.+?)\s+\d{2}/\d{2}/\d{4}` (Python backtracking semantics),
emitting `(tombamento, denominacao.strip())` on a match. -/

/-- The literal `\d{2}/\d{2}/\d{4}` date token test at the head of a
character list (no end anchor: trailing characters are ignored). -/
def dateAt : List Char → Bool
  | d1 :: d2 :: c1 :: d3 :: d4 :: c2 :: y1 :: y2 :: y3 :: y4 :: _ =>
    isPyDigit d1 && isPyDigit d2 && c1 = '/' && isPyDigit d3 && isPyDigit d4 &&
      c2 = '/' && isPyDigit y1 && isPyDigit y2 && isPyDigit y3 && isPyDigit y4
  | _ => false

/-- The tail `\s+\d{2}/\d{2}/\d{4}` of the item regex, tried with the
greedy `\s+` backtracking from its maximal width down to 1. -/
def tailMatches (r2 : List Char) : Bool :=
  let wmax := (r2.takeWhile isPySpace).length
  ((List.range' 1 wmax).reverse).any (fun w2 => dateAt (r2.drop w2))

/-- The suffix `\s+(.+?)\s+\d{2}/\d{2}/\d{4}` of the item regex: the greedy
`\s+` is tried longest-first, the lazy group `(.+?)` shortest-first (`.`
matches anything but a newline).  Returns the text captured by `(.+?)`. -/
def descGroup (r : List Char) : Option (List Char) :=
  let wmax := (r.takeWhile isPySpace).length
  ((List.range' 1 wmax).reverse).findSome? (fun w =>
    let r1 := r.drop w
    (List.range' 1 r1.length).findSome? (fun d =>
      let g2 := r1.take d
      if g2.all (fun c => c ≠ '\n') && tailMatches (r1.drop d) then some g2
      else none))

/-- `re.match(r"^(\d{6,})\s+(.+?)\s+\d{2}/\d{2}/\d{4}", s)`: the greedy
`\d{6,}` is tried longest-first (from the maximal leading digit run down
to 6 digits).  Returns the two captured groups. -/
def itemRegexMatch (s : List Char) : Option (List Char × List Char) :=
  let dmax := (s.takeWhile isPyDigit).length
  ((List.range' 6 (dmax - 5)).reverse).findSome? (fun k =>
    match descGroup (s.drop k) with
    | some g2 => some (s.take k, g2)
    | none => none)

/-- The header line `"número de série"` (used lower-cased by the source). -/
def serialHeader : List Char :=
  "número de série".data

/-- The per-line body of `extract_items_from_pdf`: strip the line, skip it
when empty or when its lower-cased form starts with the serial-number
header, otherwise apply the item regex and emit
`(tombamento, denominacao.strip())`. -/
def processLine (l : List Char) : Option (List Char × List Char) :=
  let s := pyStripList l
  if s = [] then none
  else if serialHeader.isPrefixOf (pyLowerList s) then none
  else
    match itemRegexMatch s with
    | some (g1, g2) => some (g1, pyStripList g2)
    | none => none

/-- `extract_items_from_pdf`, over the extracted text of each page
(`None` / empty text pages are skipped, pages are split into lines on
newlines). -/
def extract_items_from_pdf (pages : List (Option String)) :
    List (List Char × List Char) :=
  pages.flatMap (fun pg =>
    match pg with
    | none => []
    | some text =>
      if text = "" then []
      else (splitOnChar '\n' text.data).filterMap processLine)

/-! ## src/main.py — Model.extract_room_from_filename (Location Resolver) -/

/-- Scan for the closing parenthesis of a `\(.*?\)` match: the nearest `)`,
provided no newline intervenes (`.` does not match a newline).  Returns the
remainder after the `)`. -/
def findClose : List Char → Option (List Char)
  | [] => none
  | c :: rest =>
    if c = ')' then some rest
    else if c = '\n' then none
    else findClose rest

/-- `re.sub(r"\(.*?\)", "", name)`, fuelled for structural recursion (each
step consumes at least one character, so `fuel = length` suffices):
repeatedly delete the leftmost shortest parenthesized span; an unmatched
`(` is kept verbatim. -/
def removeParensFuel : Nat → List Char → List Char
  | 0, cs => cs
  | _, [] => []
  | fuel + 1, c :: rest =>
    if c = '(' then
      match findClose rest with
      | some after => removeParensFuel fuel after
      | none => c :: removeParensFuel fuel rest
    else c :: removeParensFuel fuel rest

/-- `re.sub(r"\(.*?\)", "", name)`. -/
def removeParens (cs : List Char) : List Char :=
  removeParensFuel cs.length cs

/-- `os.path.splitext(filename)[0]` for a bare file name (no directory
separators): the extension starts at the last dot, unless every character
before that dot is itself a dot. -/
def splitextRootList (cs : List Char) : List Char :=
  match cs.reverse.findIdx? (fun c => c = '.') with
  | none => cs
  | some j =>
    let i := cs.length - 1 - j
    if (cs.take i).any (fun c => c ≠ '.') then cs.take i else cs

/-- The fixed denylist of administrative/personal-name keywords of
`extract_room_from_filename`. -/
def ROOM_STOP_KEYWORDS : List String :=
  ["CEDUC", "NEOA", "SUPORTE", "GABINETE", "PROF", "DOCENTE",
   "AL", "ANA", "CAROLINA", "RODRIGUES", "OLIVEIRA"]

/-- `any(keyword in part.upper() for keyword in [...])`. -/
def isStopToken (p : List Char) : Bool :=
  ROOM_STOP_KEYWORDS.any (fun kw => listContains (pyUpperList p) kw.data)

/-- The local variable `name` of `extract_room_from_filename`: extension
stripped, parenthesized substrings removed, whitespace stripped. -/
def roomName (filename : String) : List Char :=
  pyStripList (removeParens (splitextRootList filename.data))

/-- The local variable `parts` of `extract_room_from_filename`: split
`name` on `_`, strip each token, keep the non-empty ones. -/
def roomTokens (filename : String) : List (List Char) :=
  ((splitOnChar '_' (roomName filename)).map pyStripList).filter (fun p => p ≠ [])

/-- `Model.extract_room_from_filename`: keep the first token and the
following tokens up to (excluding) the first one containing a denylist
keyword case-insensitively; join with spaces.  With no surviving tokens,
return `name` unchanged. -/
def extract_room_from_filename (filename : String) : String :=
  match roomTokens filename with
  | [] => ⟨roomName filename⟩
  | p :: ps => ⟨joinWith [' '] (p :: ps.takeWhile (fun q => !(isStopToken q)))⟩

/-! ## Spreadsheet data model and Model.load_spreadsheet_data -/

/-- A spreadsheet cell value, with Python truthiness (`None`, `""` and `0`
are falsy) and Python `str()` rendering. -/
inductive Cell where
  | pyNone
  | pyStr (s : String)
  | pyInt (z : Int)
deriving DecidableEq, Repr

/-- Python truthiness of a cell value. -/
def Cell.falsy : Cell → Bool
  | .pyNone => true
  | .pyStr s => s = ""
  | .pyInt z => z = 0

/-- Python `str()` of a cell value. -/
def Cell.toText : Cell → String
  | .pyNone => "None"
  | .pyStr s => s
  | .pyInt z => toString z

/-- `str(cell).strip() if cell else ""` — the guarded stringification used
for cell comparisons and for the tombamento key. -/
def cellText (c : Cell) : String :=
  if c.falsy then "" else pyStrip c.toText

/-- One sheet of a workbook: its name and all its rows (row 1 is the
header row, skipped by `iter_rows(min_row=2)`). -/
structure Sheet where
  name : String
  rows : List (List Cell)
deriving DecidableEq, Repr

/-- One file of a folder listing: its name, whether `load_workbook` can
open it, and its sheets in `sheetnames` order. -/
structure XFile where
  name : String
  openable : Bool
  sheets : List Sheet
deriving DecidableEq, Repr

/-- One configured spreadsheet folder: whether `os.path.exists` holds, its
path, and its directory listing in `os.listdir` order. -/
structure Folder where
  present : Bool
  path : String
  files : List XFile
deriving DecidableEq, Repr

/-- The row body of `Model.load_spreadsheet_data`: skip rows with fewer
than 3 cells; take `str(row[2]).strip() if row[2] else ""`; insert
`(tombamento, extract_room_from_filename(file))` only when the key is
non-empty and not yet present (first write wins). -/
def insertTomb (file : String) (m : List (String × String)) (row : List Cell) :
    List (String × String) :=
  if row.length < 3 then m
  else
    let t := cellText (row.getD 2 .pyNone)
    if t ≠ "" ∧ (m.lookup t).isNone then m ++ [(t, extract_room_from_filename file)]
    else m

/-- All data rows of one sheet (`iter_rows(min_row=2)` drops the header). -/
def loadSheet (file : String) (m : List (String × String)) (sheet : Sheet) :
    List (String × String) :=
  (sheet.rows.drop 1).foldl (insertTomb file) m

/-- One file: skipped entirely when `load_workbook` raises. -/
def loadFile (m : List (String × String)) (f : XFile) : List (String × String) :=
  if f.openable then f.sheets.foldl (loadSheet f.name) m else m

/-- One folder: skipped when it does not exist; only `.xlsx` files are
considered, in listing order. -/
def loadFolder (m : List (String × String)) (fo : Folder) : List (String × String) :=
  if fo.present then
    (fo.files.filter (fun f => strEndsWith f.name ".xlsx")).foldl loadFile m
  else m

/-- `Model.load_spreadsheet_data`: the tombamento → location index, an
insertion-ordered dictionary built over folders → files → sheets → rows. -/
def load_spreadsheet_data (folders : List Folder) : List (String × String) :=
  folders.foldl loadFolder []

/-! ## Configuration and EnhancedController.search_items (point lookup) -/

/-- The configuration values consumed by the core (`config.json` keys
`search.case_sensitive`, `search.partial_match`, `performance.batch_size`,
`interface.show_progress`). -/
structure Config where
  caseSensitive : Bool
  substrMatch : Bool
  batchSize : Nat
  showProgress : Bool
deriving DecidableEq, Repr

/-- One displayed search result: originating folder, file, sheet, sheet
row number and the row itself. -/
structure MatchRecord where
  folder : String
  file : String
  sheet : String
  rowIndex : Nat
  row : List Cell
deriving DecidableEq, Repr

/-- `search_items` preprocessing of the query:
`value.strip()`, upper-cased unless case-sensitive search. -/
def prepSearchValue (cfg : Config) (value : String) : String :=
  let original := pyStrip value
  if !cfg.caseSensitive then pyUpper original else original

/-- The per-cell comparison of `search_items`: the cell is read as
`str(cell).strip() if cell else ""`, upper-cased unless case-sensitive,
then either substring (`partial_match`) or equality. -/
def cellMatches (cfg : Config) (searchValue : String) (c : Cell) : Bool :=
  let cv := cellText c
  let cv := if !cfg.caseSensitive then pyUpper cv else cv
  if cfg.substrMatch then strContains cv searchValue else cv = searchValue

/-- The sheet loop of `search_items`: rows enumerated from sheet row 2,
rows with fewer than 8 cells skipped, matches appended in row order. -/
def searchSheet (cfg : Config) (sv : String) (col : Nat)
    (folderPath file sheetName : String) (acc : List MatchRecord)
    (rows : List (List Cell)) : List MatchRecord :=
  ((rows.drop 1).enumFrom 2).foldl
    (fun a ir =>
      if ir.2.length < 8 then a
      else if cellMatches cfg sv (ir.2.getD col .pyNone) then
        a ++ [⟨folderPath, file, sheetName, ir.1, ir.2⟩]
      else a)
    acc

/-- `EnhancedController.search_items`: scan all folders (skipping absent
ones), all `.xlsx` files (skipping unopenable ones), all sheets and all
rows, collecting every match in enumeration order (no short-circuit). -/
def search_items (cfg : Config) (folders : List Folder) (col : Nat)
    (value : String) : List MatchRecord :=
  let sv := prepSearchValue cfg value
  folders.foldl
    (fun acc fo =>
      if fo.present then
        (fo.files.filter (fun f => strEndsWith f.name ".xlsx")).foldl
          (fun acc2 f =>
            if f.openable then
              f.sheets.foldl
                (fun acc3 sh => searchSheet cfg sv col fo.path f.name sh.name acc3 sh.rows)
                acc2
            else acc2)
          acc
      else acc)
    []

/-- Every scanned row with its annotations, in enumeration order (the
declarative flattening of the `search_items` loop nest). -/
def allRows (folders : List Folder) : List MatchRecord :=
  folders.flatMap (fun fo =>
    if fo.present then
      (fo.files.filter (fun f => strEndsWith f.name ".xlsx")).flatMap (fun f =>
        if f.openable then
          f.sheets.flatMap (fun sh =>
            ((sh.rows.drop 1).enumFrom 2).map
              (fun ir => ⟨fo.path, f.name, sh.name, ir.1, ir.2⟩))
        else [])
    else [])

/-- The comparison exactly as the claim words it (no row-length guard, no
whitespace trimming of either side): partial mode is substring, exact
mode is string equality, case-insensitive configuration folds both
sides. -/
def claimCellMatches (cfg : Config) (value : String) (c : Cell) : Bool :=
  let q := if !cfg.caseSensitive then pyUpper value else value
  let cv := if !cfg.caseSensitive then pyUpper c.toText else c.toText
  if cfg.substrMatch then strContains cv q else cv = q

/-- The lookup the claim describes: every row of every source compared,
every matching row reported in source-enumeration order. -/
def search_items_claimed (cfg : Config) (folders : List Folder) (col : Nat)
    (value : String) : List MatchRecord :=
  (allRows folders).filter (fun r => claimCellMatches cfg value (r.row.getD col .pyNone))

/-- The row predicate `search_items` actually applies: the row must carry
the full 8 positional fields, and the (trimmed, optionally case-folded)
cell must match the (trimmed, optionally case-folded) query. -/
def amendedRowMatches (cfg : Config) (sv : String) (col : Nat) (r : MatchRecord) : Bool :=
  !(r.row.length < 8) && cellMatches cfg sv (r.row.getD col .pyNone)

/-- The declarative description of `search_items` after amending the
claim: all sufficiently wide matching rows, in enumeration order. -/
def search_items_amended (cfg : Config) (folders : List Folder) (col : Nat)
    (value : String) : List MatchRecord :=
  (allRows folders).filter (amendedRowMatches cfg (prepSearchValue cfg value) col)

/-- What one row contributes to the `search_items` output (the loop body
as a list-valued function). -/
def rowEmit (cfg : Config) (sv : String) (col : Nat)
    (folderPath file sheetName : String) (ir : Nat × List Cell) : List MatchRecord :=
  if ir.2.length < 8 then []
  else if cellMatches cfg sv (ir.2.getD col .pyNone) then
    [⟨folderPath, file, sheetName, ir.1, ir.2⟩]
  else []

/-- What one sheet contributes to the `search_items` output. -/
def sheetEmit (cfg : Config) (sv : String) (col : Nat) (folderPath file : String)
    (sh : Sheet) : List MatchRecord :=
  ((sh.rows.drop 1).enumFrom 2).flatMap (rowEmit cfg sv col folderPath file sh.name)

/-- What one file contributes to the `search_items` output. -/
def fileEmit (cfg : Config) (sv : String) (col : Nat) (folderPath : String)
    (f : XFile) : List MatchRecord :=
  if f.openable then f.sheets.flatMap (sheetEmit cfg sv col folderPath f.name) else []

/-- What one folder contributes to the `search_items` output. -/
def folderEmit (cfg : Config) (sv : String) (col : Nat) (fo : Folder) :
    List MatchRecord :=
  if fo.present then
    (fo.files.filter (fun f => strEndsWith f.name ".xlsx")).flatMap
      (fileEmit cfg sv col fo.path)
  else []

/-! ## EnhancedController.search_items_from_pdf — bulk reconciliation -/

/-- One reconciliation entry (the dictionaries built by `process_batch`
all hold these fields). -/
structure RItem where
  status : Bool
  tombamento : String
  denominacao : String
  sala : String
deriving DecidableEq, Repr

/-- The three accumulators of `process_batch`: `tombamento_results` (an
insertion-ordered dict), `itens_por_sala` (an insertion-ordered
defaultdict of lists) and `export_data` (a plain list). -/
structure BatchState where
  results : List (String × Bool)
  porSala : List (String × List RItem)
  exportData : List RItem
deriving DecidableEq, Repr

def emptyBatchState : BatchState := ⟨[], [], []⟩

/-- Python dict assignment `m[k] = v`: update in place when the key is
present (keeping its position), otherwise append. -/
def dictSet (m : List (String × Bool)) (k : String) (v : Bool) :
    List (String × Bool) :=
  if (m.lookup k).isSome then m.map (fun p => if p.1 = k then (p.1, v) else p)
  else m ++ [(k, v)]

/-- `defaultdict(list)` append `g[k].append(it)`. -/
def groupAppend (g : List (String × List RItem)) (k : String) (it : RItem) :
    List (String × List RItem) :=
  if (g.lookup k).isSome then g.map (fun p => if p.1 = k then (p.1, p.2 ++ [it]) else p)
  else g ++ [(k, [it])]

def NOT_FOUND : String := "NÃO ENCONTRADO"

/-- The body of `process_batch` for one report item: membership of the
tombamento among the index keys decides found/not-found; all three
accumulators are extended. -/
def processItem (index : List (String × String)) (st : BatchState)
    (item : String × String) : BatchState :=
  match index.lookup item.1 with
  | some sala =>
    let it : RItem := ⟨true, item.1, item.2, sala⟩
    ⟨dictSet st.results item.1 true, groupAppend st.porSala sala it,
     st.exportData ++ [it]⟩
  | none =>
    let it : RItem := ⟨false, item.1, item.2, NOT_FOUND⟩
    ⟨dictSet st.results item.1 false, groupAppend st.porSala NOT_FOUND it,
     st.exportData ++ [it]⟩

/-- The slices `items[i:i+batch_size]` taken by
`PerformanceOptimizer.batch_process`.  A non-positive batch size never
reaches the callback (`range` with step 0 raises, and `safe_execute`
swallows the exception before any item is processed). -/
def chunksOfFuel : Nat → Nat → List α → List (List α)
  | 0, _, _ => []
  | _, _, [] => []
  | fuel + 1, bs, a :: l =>
    if bs = 0 then []
    else (a :: l).take bs :: chunksOfFuel fuel bs ((a :: l).drop bs)

/-- The slice list itself (`fuel = length` suffices: every slice of a
positive batch size consumes at least one item). -/
def chunksOf (bs : Nat) (l : List α) : List (List α) :=
  chunksOfFuel l.length bs l

/-- One iteration of the batch loop of
`PerformanceOptimizer.batch_process`: run the callback on the slice over
the shared state, count the processed items, and (when `show_progress` is
set) print a progress percentage — returned here as a log entry, separate
from the data. -/
def batchStep (cfg : Config) (index : List (String × String)) (total : ℚ)
    (acc : BatchState × Nat × List ℚ) (batch : List (String × String)) :
    BatchState × Nat × List ℚ :=
  let st := batch.foldl (processItem index) acc.1
  let done := acc.2.1 + batch.length
  let log :=
    if cfg.showProgress then acc.2.2 ++ [(done : ℚ) / total * 100]
    else acc.2.2
  (st, done, log)

/-- `PerformanceOptimizer.batch_process` driving `process_batch`: the
callback is applied batch by batch over one shared state. -/
def batch_process (cfg : Config) (index : List (String × String))
    (items : List (String × String)) : BatchState × List ℚ :=
  let total : ℚ := items.length
  let r := (chunksOf cfg.batchSize items).foldl (batchStep cfg index total)
    (emptyBatchState, 0, [])
  (r.1, r.2.2)

/-- The data part of `EnhancedController.search_items_from_pdf`: with no
report items the function returns early with nothing processed; otherwise
the batch processing produces the reconciliation state. -/
def search_items_from_pdf (cfg : Config) (index : List (String × String))
    (reportItems : List (String × String)) : BatchState :=
  if reportItems = [] then emptyBatchState
  else (batch_process cfg index reportItems).1

/-- The order in which tombamentos are printed by the result loop
`for sala, itens in itens_por_sala.items(): for item in itens: ...`. -/
def renderedTombamentos (st : BatchState) : List String :=
  st.porSala.flatMap (fun p => p.2.map (fun it => it.tombamento))

/-! ## Model.generate_checked_pdf — annotation mapper -/

/-- One word of `page.get_text("words")`:
`(x0, y0, x1, y1, text, block_no, line_no, word_no)`. -/
structure PWord where
  x0 : ℚ
  y0 : ℚ
  x1 : ℚ
  y1 : ℚ
  text : String
  block : Nat
  line : Nat
  wordNo : Nat
deriving DecidableEq, Repr

/-- One `page.draw_line` call: endpoints, color, stroke width. -/
structure Seg where
  a : ℚ × ℚ
  b : ℚ × ℚ
  color : ℚ × ℚ × ℚ
  width : ℚ
deriving DecidableEq, Repr

def GREEN : ℚ × ℚ × ℚ := (0, 3/5, 1/4)

def RED : ℚ × ℚ × ℚ := (3/4, 3/20, 3/20)

def ICON_X : ℚ := 16

def ICON_SIZE : ℚ := 8

def STROKE : ℚ := 3/2

/-- `Model.draw_check`: a checkmark as two line segments. -/
def draw_check (x y size : ℚ) (color : ℚ × ℚ × ℚ) (width : ℚ) : List Seg :=
  [⟨(x - size * (2/5), y), (x - size * (1/10), y + size * (2/5)), color, width⟩,
   ⟨(x - size * (1/10), y + size * (2/5)), (x + size * (1/2), y - size * (1/2)), color, width⟩]

/-- `Model.draw_x`: a cross as two line segments. -/
def draw_x (x y size : ℚ) (color : ℚ × ℚ × ℚ) (width : ℚ) : List Seg :=
  [⟨(x - size * (1/2), y - size * (1/2)), (x + size * (1/2), y + size * (1/2)), color, width⟩,
   ⟨(x - size * (1/2), y + size * (1/2)), (x + size * (1/2), y - size * (1/2)), color, width⟩]

/-- One emitted marker: anchor, found flag, color and its two segments. -/
structure Marker where
  x : ℚ
  y : ℚ
  found : Bool
  color : ℚ × ℚ × ℚ
  segs : List Seg
deriving DecidableEq, Repr

/-- The inner loops of `generate_checked_pdf` for one
`(tombamento, found)` pair on one page: every word whose text contains
the tombamento yields a marker (after the vacuous same-line guard),
anchored at `ICON_X` and the vertical center of that word's box, drawn
green check / red cross according to `found`. -/
def markersForTomb (words : List PWord) (t : String) (found : Bool) :
    List Marker :=
  (words.filter (fun w => strContains w.text t)).filterMap (fun w =>
    if (words.filter (fun v => v.block = w.block ∧ v.line = w.line)) = [] then none
    else
      let cy := (w.y0 + w.y1) / 2
      let color := if found then GREEN else RED
      some ⟨ICON_X, cy, found, color,
            if found then draw_check ICON_X cy ICON_SIZE color STROKE
            else draw_x ICON_X cy ICON_SIZE color STROKE⟩)

/-- The drawing commands `generate_checked_pdf` issues on one page, over
all entries of `tombamento_results` in dict order. -/
def generate_checked_page (words : List PWord) (results : List (String × Bool)) :
    List Seg :=
  results.flatMap (fun r => (markersForTomb words r.1 r.2).flatMap Marker.segs)

/-- The number of distinct text lines `(block, line)` of the page holding
a word whose text contains the identifier (the unit the claim counts
markers by). -/
def matchingLineCount (words : List PWord) (t : String) : Nat :=
  (((words.filter (fun w => strContains w.text t)).map
      (fun w => (w.block, w.line))).dedup).length

/-! ## Claim-side auxiliary definitions and concrete scenario data -/

/-- A date-shaped token `DD/MM/YYYY` occurs somewhere in the line. -/
def containsDate (l : List Char) : Bool :=
  l.tails.any dateAt

/-- Remove the sources the loader skips: absent folders and unopenable
files. -/
def removeBadSources (folders : List Folder) : List Folder :=
  (folders.filter (fun fo => fo.present)).map
    (fun fo => { fo with files := fo.files.filter (fun f => f.openable) })

/-- The reconciliation entry `process_batch` appends to `export_data` for
one report item. -/
def exportOf (index : List (String × String)) (item : String × String) : RItem :=
  match index.lookup item.1 with
  | some sala => ⟨true, item.1, item.2, sala⟩
  | none => ⟨false, item.1, item.2, NOT_FOUND⟩

/-- The spec's end-to-end scenario: two source files contributing
tombamento `"100"` with locations `"A"` then `"B"`, in that processing
order. -/
def twoSourceFolders : List Folder :=
  [⟨true, "P1", [⟨"A.xlsx", true, [⟨"S", [[], [.pyNone, .pyNone, .pyStr "100"]]⟩]⟩]⟩,
   ⟨true, "P2", [⟨"B.xlsx", true, [⟨"S", [[], [.pyNone, .pyNone, .pyStr "100"]]⟩]⟩]⟩]

/-- A point-lookup scenario: one sheet whose row 2 has only 3 cells (its
tombamento cell equals the query exactly) and whose row 3 has 8 cells
with a whitespace-padded tombamento. -/
def lookupDemoFolders : List Folder :=
  [⟨true, "P", [⟨"f.xlsx", true, [⟨"S",
      [[],
       [.pyNone, .pyNone, .pyStr "QQ"],
       [.pyNone, .pyNone, .pyStr " QQ ", .pyNone, .pyNone, .pyNone, .pyNone,
        .pyNone]]⟩]⟩]⟩]

/-- A fixed configuration: case-sensitive exact matching, batch size 50,
progress display on (the `config.json` defaults apart from matching
mode). -/
def demoConfig : Config := ⟨true, false, 50, true⟩

/-- A reconciliation scenario whose items resolve to the rooms
`A`, `NÃO ENCONTRADO`, `A` in report order. -/
def reconDemoIndex : List (String × String) := [("100", "A"), ("101", "A")]

/-- The report items of the reconciliation scenario. -/
def reconDemoItems : List (String × String) :=
  [("100", "d1"), ("200", "d2"), ("101", "d3")]

/-- Two words on the same text line (block 0, line 0) of a page, both
containing the identifier `"123456"` in their text. -/
def sameLineWords : List PWord :=
  [⟨0, 0, 10, 10, "123456", 0, 0, 0⟩, ⟨20, 0, 30, 10, "X123456", 0, 0, 1⟩]

/-- Two words on two distinct text lines, one match per line. -/
def twoLineWords : List PWord :=
  [⟨0, 0, 10, 10, "123456", 0, 0, 0⟩, ⟨0, 40, 10, 50, "123456", 0, 3, 0⟩]

/-! ## General-purpose lemmas -/

theorem findSomeExists {α β : Type _} {f : α → Option β} :
    ∀ {L : List α} {y : β}, L.findSome? f = some y → ∃ x ∈ L, f x = some y := by
  intro L
  induction L with
  | nil => intro y h; simp [List.findSome?] at h
  | cons a l ih =>
    intro y h
    rw [List.findSome?_cons] at h
    cases hfa : f a with
    | some b =>
      rw [hfa] at h
      exact ⟨a, by simp, by rw [hfa]; exact h⟩
    | none =>
      rw [hfa] at h
      obtain ⟨x, hx, hfx⟩ := ih h
      exact ⟨x, by simp [hx], hfx⟩

theorem foldlHomAppend {α β : Type _} (f : List β → α → List β) (g : α → List β)
    (hf : ∀ a x, f a x = a ++ g x) :
    ∀ (l : List α) (acc : List β), l.foldl f acc = acc ++ l.flatMap g := by
  intro l
  induction l with
  | nil => intro acc; simp
  | cons x xs ih =>
    intro acc
    rw [List.foldl_cons, hf, ih, List.flatMap_cons, List.append_assoc]

theorem flatMapIfSingleton {α β : Type _} (q : α → Bool) (h : α → β) :
    ∀ l : List α, (l.flatMap fun x => if q x then [h x] else []) = (l.filter q).map h := by
  intro l
  induction l with
  | nil => simp
  | cons a t ih =>
    cases hq : q a with
    | true => simp [List.flatMap_cons, List.filter_cons, hq, ih]
    | false => simp [List.flatMap_cons, List.filter_cons, hq, ih]

theorem lengthFilterMapAllSome {α β : Type _} (f : α → Option β) :
    ∀ l : List α, (∀ x ∈ l, (f x).isSome) → (l.filterMap f).length = l.length := by
  intro l
  induction l with
  | nil => intro _; simp
  | cons a t ih =>
    intro h
    have ha := h a (by simp)
    cases hfa : f a with
    | none => rw [hfa] at ha; simp at ha
    | some b =>
      rw [List.filterMap_cons, hfa, List.length_cons,
        ih (fun x hx => h x (by simp [hx])), List.length_cons]

theorem foldlPreserve {σ α : Type _} (P : σ → Prop) (step : σ → α → σ)
    (hstep : ∀ s x, P s → P (step s x)) :
    ∀ (l : List α) (s : σ), P s → P (l.foldl step s) := by
  intro l
  induction l with
  | nil => intro s h; simpa
  | cons a t ih =>
    intro s h
    rw [List.foldl_cons]
    exact ih _ (hstep s a h)

theorem lookupAppendLeft {β : Type _} (m₂ : List (String × β)) :
    ∀ {m₁ : List (String × β)} {k : String} {v : β},
      m₁.lookup k = some v → (m₁ ++ m₂).lookup k = some v := by
  intro m₁
  induction m₁ with
  | nil => intro k v h; simp [List.lookup] at h
  | cons p t ih =>
    intro k v h
    obtain ⟨a, b⟩ := p
    simp only [List.cons_append, List.lookup_cons] at h ⊢
    cases hk : (k == a) with
    | true => rw [hk] at h; exact h
    | false => rw [hk] at h; exact ih h

theorem lookupMem {β : Type _} :
    ∀ {m : List (String × β)} {k : String} {v : β}, m.lookup k = some v → (k, v) ∈ m := by
  intro m
  induction m with
  | nil => intro k v h; simp [List.lookup] at h
  | cons p t ih =>
    intro k v h
    obtain ⟨a, b⟩ := p
    rw [List.lookup_cons] at h
    cases hk : (k == a) with
    | true =>
      rw [hk] at h
      cases h
      have : k = a := by simpa using hk
      subst this
      simp
    | false =>
      rw [hk] at h
      exact List.mem_cons_of_mem _ (ih h)

theorem lookupIsSomeIff {β : Type _} :
    ∀ (m : List (String × β)) (k : String), (m.lookup k).isSome = true ↔ ∃ v, (k, v) ∈ m := by
  intro m
  induction m with
  | nil => intro k; simp [List.lookup]
  | cons p t ih =>
    intro k
    obtain ⟨a, b⟩ := p
    rw [List.lookup_cons]
    cases hk : (k == a) with
    | true =>
      have : k = a := by simpa using hk
      subst this
      simp
    | false =>
      have hne : ¬ k = a := by simpa using hk
      simp only [Option.isSome]
      constructor
      · intro h
        obtain ⟨v, hv⟩ := (ih k).mp h
        exact ⟨v, by simp [hv]⟩
      · intro ⟨v, hv⟩
        rcases List.mem_cons.mp hv with he | hm
        · cases he; exact absurd rfl hne
        · exact (ih k).mpr ⟨v, hm⟩

/-! ## Lemmas about the index loader -/

theorem insertTomb_preserves {file : String} {m : List (String × String)}
    {row : List Cell} {k v : String} (h : m.lookup k = some v) :
    (insertTomb file m row).lookup k = some v := by
  simp only [insertTomb]
  split
  · exact h
  · split
    · exact lookupAppendLeft _ h
    · exact h

/-- Any property of the accumulating index preserved by one `insertTomb`
step is preserved by the whole loader. -/
theorem loadPreserve (P : List (String × String) → Prop)
    (hIns : ∀ file m row, P m → P (insertTomb file m row)) :
    ∀ (folders : List Folder) (m : List (String × String)),
      P m → P (folders.foldl loadFolder m) := by
  have hSheet : ∀ file sheet m, P m → P (loadSheet file m sheet) := by
    intro file sheet m h
    unfold loadSheet
    exact foldlPreserve P _ (fun s x hs => hIns file s x hs) _ m h
  have hFile : ∀ f m, P m → P (loadFile m f) := by
    intro f m h
    unfold loadFile
    split
    · exact foldlPreserve P _ (fun s x hs => hSheet f.name x s hs) _ m h
    · exact h
  have hFolder : ∀ fo m, P m → P (loadFolder m fo) := by
    intro fo m h
    unfold loadFolder
    split
    · exact foldlPreserve P _ (fun s x hs => hFile x s hs) _ m h
    · exact h
  intro folders m h
  exact foldlPreserve P _ (fun s x hs => hFolder x s hs) folders m h

theorem loadFolder_skip {m : List (String × String)} {fo : Folder}
    (h : fo.present = false) : loadFolder m fo = m := by
  unfold loadFolder
  simp [h]

theorem loadFile_skip {m : List (String × String)} {f : XFile}
    (h : f.openable = false) : loadFile m f = m := by
  unfold loadFile
  simp [h]

theorem loadFiles_clean :
    ∀ (files : List XFile) (m : List (String × String)),
      ((files.filter (fun f => strEndsWith f.name ".xlsx")).foldl loadFile m) =
        (((files.filter (fun f => f.openable)).filter
            (fun f => strEndsWith f.name ".xlsx")).foldl loadFile m) := by
  intro files
  induction files with
  | nil => intro m; rfl
  | cons f t ih =>
    intro m
    cases hx : strEndsWith f.name ".xlsx" with
    | false =>
      cases ho : f.openable with
      | false => simp [List.filter_cons, hx, ho, ih]
      | true => simp [List.filter_cons, hx, ho, ih]
    | true =>
      cases ho : f.openable with
      | false => simp [List.filter_cons, hx, ho, loadFile_skip, ih]
      | true => simp [List.filter_cons, hx, ho, ih]

theorem load_clean :
    ∀ folders : List Folder,
      load_spreadsheet_data folders = load_spreadsheet_data (removeBadSources folders) := by
  have key : ∀ (folders : List Folder) (m : List (String × String)),
      folders.foldl loadFolder m = (removeBadSources folders).foldl loadFolder m := by
    intro folders
    induction folders with
    | nil => intro m; rfl
    | cons fo t ih =>
      intro m
      cases hp : fo.present with
      | false => simp [removeBadSources, List.filter_cons, hp, loadFolder_skip, ih m,
          removeBadSources]
      | true =>
        have hstep : loadFolder m fo =
            loadFolder m { fo with files := fo.files.filter (fun f => f.openable) } := by
          unfold loadFolder
          simp only [hp, if_true]
          exact loadFiles_clean fo.files m
        simp only [hp] at hstep
        simp only [removeBadSources, List.filter_cons, hp, if_true, List.map_cons,
          List.foldl_cons]
        rw [← hstep, ih]
        rfl
  intro folders
  exact key folders []

/-! ## Strip idempotence -/

theorem dropWhileIdem {α : Type _} (p : α → Bool) :
    ∀ l : List α, List.dropWhile p (List.dropWhile p l) = List.dropWhile p l := by
  intro l
  induction l with
  | nil => simp
  | cons a t ih =>
    cases hpa : p a with
    | true => simp [List.dropWhile_cons, hpa, ih]
    | false => simp [List.dropWhile_cons, hpa]

theorem lengthDropWhileLe {α : Type _} (p : α → Bool) :
    ∀ l : List α, (List.dropWhile p l).length ≤ l.length := by
  intro l
  induction l with
  | nil => simp
  | cons a t ih =>
    cases hpa : p a with
    | true =>
      simp only [List.dropWhile_cons, hpa, if_true, List.length_cons]
      exact Nat.le_trans ih (Nat.le_succ _)
    | false => simp [List.dropWhile_cons, hpa]

theorem pyStripListIdem (cs : List Char) :
    pyStripList (pyStripList cs) = pyStripList cs := by
  unfold pyStripList
  generalize hl1 : cs.dropWhile isPySpace = l1
  generalize hx : l1.reverse.dropWhile isPySpace = x
  have hl1d : List.dropWhile isPySpace l1 = l1 := by
    rw [← hl1]
    exact dropWhileIdem _ cs
  have hxpre : x.reverse <+: l1 := by
    have hsuf : x <:+ l1.reverse := by
      rw [← hx]
      exact List.dropWhile_suffix _
    exact (List.reverse_suffix).mp (by rw [List.reverse_reverse]; exact hsuf)
  have hstep1 : List.dropWhile isPySpace x.reverse = x.reverse := by
    obtain ⟨t, ht⟩ := hxpre
    cases hxr : x.reverse with
    | nil => simp
    | cons a r2 =>
      have hl1eq : l1 = a :: (r2 ++ t) := by
        rw [← ht, hxr]
        simp
      have hsp : isPySpace a = false := by
        cases hspa : isPySpace a with
        | false => rfl
        | true =>
          exfalso
          rw [hl1eq, List.dropWhile_cons, hspa] at hl1d
          simp only [if_true] at hl1d
          have hlen := lengthDropWhileLe isPySpace (r2 ++ t)
          rw [hl1d] at hlen
          simp at hlen
      simp [List.dropWhile_cons, hsp]
  rw [hstep1, List.reverse_reverse]
  have hxd : List.dropWhile isPySpace x = x := by
    rw [← hx]
    exact dropWhileIdem _ l1.reverse
  rw [hxd]

theorem pyStripCellText (c : Cell) : pyStrip (cellText c) = cellText c := by
  unfold cellText
  split
  · rfl
  · exact congrArg String.mk (pyStripListIdem _)

theorem insertTomb_keys {file : String} {m : List (String × String)} {row : List Cell}
    (h : ∀ p ∈ m, p.1 ≠ "" ∧ pyStrip p.1 = p.1) :
    ∀ p ∈ insertTomb file m row, p.1 ≠ "" ∧ pyStrip p.1 = p.1 := by
  simp only [insertTomb]
  split
  · exact h
  · split
    · next hg =>
      intro p hp
      rcases List.mem_append.mp hp with hm | he
      · exact h p hm
      · have hpe : p = (cellText (row.getD 2 .pyNone), extract_room_from_filename file) := by
          simpa using he
        rw [hpe]
        exact ⟨hg.1, pyStripCellText _⟩
    · exact h

/-! ## Claim theorems: the index loader (C1, C8, C9) -/

/-- C1: Index construction is first-write-wins.  A record processed after a
tombamento key is already mapped never changes the stored mapping — one
more `insertTomb` step preserves every existing binding, and appending
further sources to the processing sequence preserves every binding of the
already-built index.  In the concrete two-source scenario contributing
tombamento "100" with locations "A" then "B" (in that enumeration order)
the index maps "100" to "A". -/
theorem C1_first_write_wins :
    (∀ (file : String) (m : List (String × String)) (row : List Cell) (k v : String),
        m.lookup k = some v → (insertTomb file m row).lookup k = some v)
    ∧ (∀ (folders extra : List Folder) (k v : String),
        (load_spreadsheet_data folders).lookup k = some v →
        (load_spreadsheet_data (folders ++ extra)).lookup k = some v)
    ∧ (load_spreadsheet_data twoSourceFolders).lookup "100" = some "A" := by
  refine ⟨fun file m row k v h => insertTomb_preserves h,
          fun folders extra k v h => ?_, by decide⟩
  unfold load_spreadsheet_data at h ⊢
  rw [List.foldl_append]
  exact loadPreserve (fun s => s.lookup k = some v)
    (fun file m row hs => insertTomb_preserves hs) extra _ h

theorem C1_first_write_wins_witness :
    (load_spreadsheet_data (twoSourceFolders ++ twoSourceFolders)).lookup "100" = some "A" :=
  C1_first_write_wins.2.1 twoSourceFolders twoSourceFolders "100" "A" (by decide)

/-- C8: The record extractor never emits a record whose identifying field
is empty after trimming: every key of the built index is non-empty and
already whitespace-trimmed, and a row with fewer than 3 positional fields
or whose tombamento cell trims to the empty string leaves the index
unchanged (it is skipped without error). -/
theorem C8_no_empty_keys :
    (∀ (folders : List Folder) (k v : String),
        (k, v) ∈ load_spreadsheet_data folders → k ≠ "" ∧ pyStrip k = k)
    ∧ (∀ (file : String) (m : List (String × String)) (row : List Cell),
        row.length < 3 ∨ cellText (row.getD 2 .pyNone) = "" →
        insertTomb file m row = m) := by
  constructor
  · intro folders k v hmem
    exact loadPreserve (fun m => ∀ p ∈ m, p.1 ≠ "" ∧ pyStrip p.1 = p.1)
      (fun file m row h => insertTomb_keys h) folders [] (by simp) (k, v) hmem
  · intro file m row hbad
    simp only [insertTomb]
    by_cases hl : row.length < 3
    · simp [hl]
    · have hempty : cellText (row.getD 2 .pyNone) = "" := by
        rcases hbad with h | h
        · exact absurd h hl
        · exact h
      simp only [List.getD, List.get?_eq_getElem?] at hempty
      simp [hl, hempty]

theorem C8_no_empty_keys_witness :
    ("100" ≠ "" ∧ pyStrip "100" = "100")
    ∧ insertTomb "A.xlsx" [] [Cell.pyNone] = [] :=
  ⟨C8_no_empty_keys.1 twoSourceFolders "100" "A" (by decide),
   C8_no_empty_keys.2 "A.xlsx" [] [Cell.pyNone] (Or.inl (by decide))⟩

/-- C9: Index construction never fails on a bad source: a folder that does
not exist contributes nothing (`loadFolder` is the identity on it), a file
that cannot be opened contributes nothing (`loadFile` is the identity on
it), and the whole load equals the load of the cleaned source list — so
the remaining sources are still processed and nothing aborts the
batch. -/
theorem C9_bad_sources_skipped :
    (∀ (m : List (String × String)) (fo : Folder), fo.present = false → loadFolder m fo = m)
    ∧ (∀ (m : List (String × String)) (f : XFile), f.openable = false → loadFile m f = m)
    ∧ (∀ folders : List Folder,
        load_spreadsheet_data folders = load_spreadsheet_data (removeBadSources folders)) :=
  ⟨fun _ _ h => loadFolder_skip h, fun _ _ h => loadFile_skip h, load_clean⟩

/-- C5: The Location Resolver strips the extension, removes parenthesized
substrings, splits on `_`, accumulates tokens from the first and stops at
the first token from the second onward whose case-insensitive form
contains a denylist keyword, never dropping the first token:
`"SALA 12_PROF_JOAO (2024)"` resolves to `"SALA 12"` (with `"PROF"` in
the denylist), the single-token `"ALMOXARIFADO"` resolves to itself, and
in general the first token is always a prefix of the result. -/
theorem C5_location_resolver :
    extract_room_from_filename "SALA 12_PROF_JOAO (2024)" = "SALA 12"
    ∧ extract_room_from_filename "ALMOXARIFADO" = "ALMOXARIFADO"
    ∧ (∀ (f : String) (p : List Char) (ps : List (List Char)),
        roomTokens f = p :: ps →
        ∃ rest : List Char, (extract_room_from_filename f).data = p ++ rest) := by
  refine ⟨by decide, by decide, fun f p ps h => ?_⟩
  unfold extract_room_from_filename
  rw [h]
  cases hps : ps.takeWhile (fun q => !(isStopToken q)) with
  | nil => exact ⟨[], by simp [hps, joinWith]⟩
  | cons a t => exact ⟨' ' :: joinWith [' '] (a :: t), by simp [hps, joinWith]⟩

theorem C5_location_resolver_witness :
    roomTokens "ALMOXARIFADO" = ["ALMOXARIFADO".data]
    ∧ ∃ rest : List Char,
        (extract_room_from_filename "ALMOXARIFADO").data = "ALMOXARIFADO".data ++ rest :=
  ⟨by decide,
   C5_location_resolver.2.2 "ALMOXARIFADO" "ALMOXARIFADO".data [] (by decide)⟩

theorem C9_bad_sources_skipped_witness :
    loadFolder [("1", "X")] ⟨false, "missing", []⟩ = [("1", "X")]
    ∧ loadFile [("1", "X")] ⟨"c.xlsx", false, []⟩ = [("1", "X")] :=
  ⟨C9_bad_sources_skipped.1 [("1", "X")] ⟨false, "missing", []⟩ rfl,
   C9_bad_sources_skipped.2.1 [("1", "X")] ⟨"c.xlsx", false, []⟩ rfl⟩

/-! ## Lemmas for the report item extractor (C4) -/

theorem itemRegexMatch_nil : itemRegexMatch [] = none := rfl

theorem dateAt_append (t u : List Char) (h : dateAt t = true) :
    dateAt (t ++ u) = true := by
  unfold dateAt at h ⊢
  split at h
  · next d1 d2 c1 d3 d4 c2 y1 y2 y3 y4 rest =>
    simpa [List.cons_append] using h
  · exact absurd h (by simp)

theorem itemRegexMatch_date {s : List Char} {g : List Char × List Char}
    (h : itemRegexMatch s = some g) : ∃ n, dateAt (s.drop n) = true := by
  simp only [itemRegexMatch] at h
  obtain ⟨k, _, hfk⟩ := findSomeExists h
  cases hdg : descGroup (s.drop k) with
  | none => rw [hdg] at hfk; simp at hfk
  | some g2 =>
    simp only [descGroup] at hdg
    obtain ⟨w, _, hfw⟩ := findSomeExists hdg
    obtain ⟨d, _, hfd⟩ := findSomeExists hfw
    have htail : tailMatches (((s.drop k).drop w).drop d) = true := by
      split at hfd
      · next hcond =>
        rw [Bool.and_eq_true] at hcond
        exact hcond.2
      · exact absurd hfd (by simp)
    simp only [tailMatches] at htail
    obtain ⟨w2, _, hdate⟩ := List.any_eq_true.mp htail
    have e1 : ((s.drop k).drop w).drop d = s.drop (k + w + d) := by
      rw [List.drop_drop, List.drop_drop]
      congr 1
      omega
    rw [e1, List.drop_drop] at hdate
    exact ⟨k + w + d + w2, hdate⟩

theorem pyStripList_between (cs : List Char) :
    ∃ a b, a ++ pyStripList cs ++ b = cs := by
  unfold pyStripList
  obtain ⟨a, ha⟩ := List.dropWhile_suffix (l := cs) isPySpace
  have hpre : ((cs.dropWhile isPySpace).reverse.dropWhile isPySpace).reverse <+:
      cs.dropWhile isPySpace :=
    (List.reverse_suffix).mp (by rw [List.reverse_reverse]; exact List.dropWhile_suffix _)
  obtain ⟨b, hb⟩ := hpre
  exact ⟨a, b, by rw [List.append_assoc, hb, ha]⟩

theorem containsDate_of_between {l t : List Char} (h : dateAt t = true)
    (hinf : ∃ a b, a ++ t ++ b = l) : containsDate l = true := by
  obtain ⟨a, b, hab⟩ := hinf
  unfold containsDate
  rw [List.any_eq_true]
  refine ⟨l.drop a.length, (List.mem_tails _ _).mpr (List.drop_suffix _ _), ?_⟩
  have he : l.drop a.length = t ++ b := by
    rw [← hab, List.append_assoc, List.drop_left]
  rw [he]
  exact dateAt_append t b h

theorem digitNotLowerN {c : Char} (hdig : isPyDigit c = true) :
    Char.toLower c ≠ 'n' := by
  unfold isPyDigit Char.isDigit at hdig
  rw [Bool.and_eq_true, decide_eq_true_eq, decide_eq_true_eq] at hdig
  obtain ⟨h48, h57⟩ := hdig
  have h57n : c.toNat ≤ 57 := h57
  intro hc
  simp only [Char.toLower] at hc
  split at hc
  · next hcond => exact absurd hcond.1 (by omega)
  · rw [hc] at h57n
    exact absurd h57n (by decide)

theorem itemRegexMatch_of_header {s : List Char}
    (h : serialHeader.isPrefixOf (pyLowerList s) = true) : itemRegexMatch s = none := by
  cases s with
  | nil => rfl
  | cons c cs =>
    have hlow : Char.toLower c = 'n' := by
      have hser : serialHeader = 'n' :: "úmero de série".data := rfl
      rw [hser, show pyLowerList (c :: cs) = Char.toLower c :: pyLowerList cs from rfl]
        at h
      simp only [List.isPrefixOf, Bool.and_eq_true] at h
      exact (beq_iff_eq.mp h.1).symm
    have hcd : isPyDigit c = false := by
      cases hdig : isPyDigit c with
      | false => rfl
      | true => exact absurd hlow (digitNotLowerN hdig)
    simp [itemRegexMatch, List.takeWhile_cons, hcd]

theorem processLine_isSome (l : List Char) :
    (processLine l).isSome = (itemRegexMatch (pyStripList l)).isSome := by
  simp only [processLine]
  by_cases h0 : pyStripList l = []
  · rw [if_pos h0, h0, itemRegexMatch_nil]
  · rw [if_neg h0]
    by_cases hh : serialHeader.isPrefixOf (pyLowerList (pyStripList l)) = true
    · rw [if_pos hh, itemRegexMatch_of_header hh]
    · rw [if_neg hh]
      cases hm : itemRegexMatch (pyStripList l) with
      | none => simp [hm]
      | some g => cases g with
        | mk g1 g2 => simp [hm]

theorem processLine_none_of_noDate {l : List Char} (h : containsDate l = false) :
    processLine l = none := by
  cases hp : processLine l with
  | none => rfl
  | some x =>
    exfalso
    have hsome : ∃ g, itemRegexMatch (pyStripList l) = some g := by
      revert hp
      simp only [processLine]
      by_cases h0 : pyStripList l = []
      · rw [if_pos h0]; intro hp; cases hp
      · rw [if_neg h0]
        by_cases hh : serialHeader.isPrefixOf (pyLowerList (pyStripList l)) = true
        · rw [if_pos hh]; intro hp; cases hp
        · rw [if_neg hh]
          cases hm : itemRegexMatch (pyStripList l) with
          | none => intro hp; cases hp
          | some g => intro _; exact ⟨g, rfl⟩
    obtain ⟨g, hg⟩ := hsome
    obtain ⟨n, hdate⟩ := itemRegexMatch_date hg
    obtain ⟨a, b, hab⟩ := pyStripList_between l
    have hinf : ∃ a2 b2, a2 ++ ((pyStripList l).drop n) ++ b2 = l := by
      refine ⟨a ++ (pyStripList l).take n, b, ?_⟩
      have hr : (a ++ (pyStripList l).take n) ++ (pyStripList l).drop n ++ b =
          a ++ ((pyStripList l).take n ++ (pyStripList l).drop n) ++ b := by
        simp [List.append_assoc]
      rw [hr, List.take_append_drop, hab]
    have hcd := containsDate_of_between hdate hinf
    rw [h] at hcd
    exact absurd hcd (by simp)

/-- C4: The report item extractor, corrected for the line stripping the
source performs: a line emits an item exactly when its whitespace-trimmed
form matches `^(\d{6,})\s+(.+?)\s+\d{2}/\d{2}/\d{4}`; a line containing
no date-shaped token emits nothing; and the sample line
`"2017004687 TELEFONE IP 23/11/2017 XYZ"` emits identifier
`"2017004687"` with trimmed label `"TELEFONE IP"`. -/
theorem C4_extractor :
    (∀ l : List Char, (processLine l).isSome = (itemRegexMatch (pyStripList l)).isSome)
    ∧ (∀ l : List Char, containsDate l = false → processLine l = none)
    ∧ processLine "2017004687 TELEFONE IP 23/11/2017 XYZ".data =
        some ("2017004687".data, "TELEFONE IP".data) :=
  ⟨processLine_isSome, fun _ h => processLine_none_of_noDate h, by decide⟩

theorem C4_extractor_witness :
    containsDate "apenas texto sem data".data = false
    ∧ processLine "apenas texto sem data".data = none :=
  ⟨by decide, C4_extractor.2.1 "apenas texto sem data".data (by decide)⟩

/-- C4 counterexample: the claim's "if and only if the line starts with at
least 6 consecutive digits ..." fails on the raw line: the extractor
strips each line first, so a line with leading whitespace emits an item
although the anchored pattern does not match the line itself. -/
theorem C4_counterexample :
    (processLine " 123456 TV 01/01/2020".data).isSome = true
    ∧ (itemRegexMatch " 123456 TV 01/01/2020".data).isSome = false := by
  exact ⟨by decide, by decide⟩

/-! ## Lemmas for bulk reconciliation (C2, C3, C10) -/

theorem flatten_chunksOfFuel {α : Type _} (bs : Nat) (hbs : bs ≠ 0) :
    ∀ (fuel : Nat) (l : List α), l.length ≤ fuel →
      (chunksOfFuel fuel bs l).flatten = l := by
  intro fuel
  induction fuel with
  | zero =>
    intro l hl
    have : l = [] := List.length_eq_zero.mp (Nat.le_zero.mp hl)
    subst this
    rfl
  | succ n ih =>
    intro l hl
    cases l with
    | nil => rfl
    | cons a t =>
      simp only [chunksOfFuel, if_neg hbs, List.flatten_cons]
      rw [ih]
      · exact List.take_append_drop bs (a :: t)
      · simp only [List.length_drop, List.length_cons]
        simp only [List.length_cons] at hl
        omega

theorem flatten_chunksOf {α : Type _} (bs : Nat) (hbs : bs ≠ 0) (l : List α) :
    (chunksOf bs l).flatten = l :=
  flatten_chunksOfFuel bs hbs l.length l (Nat.le_refl _)

theorem foldl_batchStep_fst (cfg : Config) (index : List (String × String)) (total : ℚ) :
    ∀ (chunks : List (List (String × String))) (acc : BatchState × Nat × List ℚ),
      (chunks.foldl (batchStep cfg index total) acc).1 =
        chunks.foldl (fun s b => b.foldl (processItem index) s) acc.1 := by
  intro chunks
  induction chunks with
  | nil => intro acc; rfl
  | cons b t ih =>
    intro acc
    rw [List.foldl_cons, List.foldl_cons, ih]
    rfl

theorem batch_process_fst (cfg : Config) (index items : List (String × String))
    (hbs : cfg.batchSize ≠ 0) :
    (batch_process cfg index items).1 = items.foldl (processItem index) emptyBatchState := by
  simp only [batch_process]
  rw [foldl_batchStep_fst]
  rw [← List.foldl_flatten, flatten_chunksOf _ hbs]

theorem search_items_from_pdf_eq (cfg : Config) (index items : List (String × String))
    (hbs : cfg.batchSize ≠ 0) :
    search_items_from_pdf cfg index items =
      items.foldl (processItem index) emptyBatchState := by
  simp only [search_items_from_pdf]
  split
  · next he => rw [he]; rfl
  · exact batch_process_fst cfg index items hbs

theorem processItem_eq (index : List (String × String)) (st : BatchState)
    (item : String × String) :
    processItem index st item =
      ⟨dictSet st.results item.1 (index.lookup item.1).isSome,
       groupAppend st.porSala (exportOf index item).sala (exportOf index item),
       st.exportData ++ [exportOf index item]⟩ := by
  cases h : index.lookup item.1 with
  | none => simp [processItem, exportOf, h]
  | some sala => simp [processItem, exportOf, h]

theorem exportOf_tombamento (index : List (String × String)) (item : String × String) :
    (exportOf index item).tombamento = item.1 := by
  cases h : index.lookup item.1 with
  | none => simp [exportOf, h]
  | some sala => simp [exportOf, h]

theorem foldl_exportData (index : List (String × String)) :
    ∀ (items : List (String × String)) (st : BatchState),
      (items.foldl (processItem index) st).exportData =
        st.exportData ++ items.map (exportOf index) := by
  intro items
  induction items with
  | nil => intro st; simp
  | cons it t ih =>
    intro st
    rw [List.foldl_cons, ih, processItem_eq]
    simp

/-! ### Association-list dictionary lemmas -/

theorem lookup_map_set {β : Type _} (k : String) (f : β → β) :
    ∀ g : List (String × β),
      (g.map (fun p => if p.1 = k then (p.1, f p.2) else p)).lookup k =
        (g.lookup k).map f := by
  intro g
  induction g with
  | nil => rfl
  | cons p t ih =>
    obtain ⟨a, b⟩ := p
    by_cases hak : a = k
    · subst hak
      simp [List.lookup_cons]
    · have hka : (k == a) = false := by
        simp [beq_iff_eq]
        exact fun h => hak h.symm
      simp only [List.map_cons, if_neg hak, List.lookup_cons, hka]
      exact ih

theorem lookup_map_set_other {β : Type _} (k k' : String) (f : β → β) (hne : k' ≠ k) :
    ∀ g : List (String × β),
      (g.map (fun p => if p.1 = k then (p.1, f p.2) else p)).lookup k' =
        g.lookup k' := by
  intro g
  induction g with
  | nil => rfl
  | cons p t ih =>
    obtain ⟨a, b⟩ := p
    by_cases hak : a = k
    · subst hak
      have hka : (k' == a) = false := by simpa [beq_iff_eq] using hne
      rw [List.map_cons, if_pos rfl]
      simp only [List.lookup_cons, hka]
      exact ih
    · rw [List.map_cons, if_neg hak]
      simp only [List.lookup_cons]
      cases hk : (k' == a) with
      | true => rfl
      | false => exact ih

theorem lookup_append_right {β : Type _} (m₂ : List (String × β)) :
    ∀ {m₁ : List (String × β)} {k : String}, m₁.lookup k = none →
      (m₁ ++ m₂).lookup k = m₂.lookup k := by
  intro m₁
  induction m₁ with
  | nil => intro k _; rfl
  | cons p t ih =>
    intro k h
    obtain ⟨a, b⟩ := p
    simp only [List.cons_append, List.lookup_cons] at h ⊢
    cases hk : (k == a) with
    | true => rw [hk] at h; cases h
    | false => rw [hk] at h; exact ih h

theorem dictSet_lookup_self (m : List (String × Bool)) (k : String) (v : Bool) :
    (dictSet m k v).lookup k = some v := by
  unfold dictSet
  split
  · next hs =>
    rw [lookup_map_set k (fun _ => v) m]
    cases hl : m.lookup k with
    | none => rw [hl] at hs; simp at hs
    | some v0 => simp
  · next hs =>
    have hn : m.lookup k = none := by
      cases hl : m.lookup k with
      | none => rfl
      | some v0 => rw [hl] at hs; simp at hs
    rw [lookup_append_right _ hn]
    simp [List.lookup_cons]

theorem dictSet_lookup_other (m : List (String × Bool)) (k : String) (v : Bool)
    (k' : String) (hne : k' ≠ k) : (dictSet m k v).lookup k' = m.lookup k' := by
  unfold dictSet
  split
  · exact lookup_map_set_other k k' (fun _ => v) hne m
  · cases hl : m.lookup k' with
    | some v0 => exact lookupAppendLeft _ hl
    | none =>
      rw [lookup_append_right _ hl]
      have : (k' == k) = false := by simpa [beq_iff_eq] using hne
      simp [List.lookup_cons, this]

theorem groupAppend_lookup_self (g : List (String × List RItem)) (k : String)
    (it : RItem) :
    (groupAppend g k it).lookup k = some (((g.lookup k).getD []) ++ [it]) := by
  unfold groupAppend
  split
  · next hs =>
    rw [lookup_map_set k (fun l => l ++ [it]) g]
    cases hl : g.lookup k with
    | none => rw [hl] at hs; simp at hs
    | some l0 => simp
  · next hs =>
    have hn : g.lookup k = none := by
      cases hl : g.lookup k with
      | none => rfl
      | some l0 => rw [hl] at hs; simp at hs
    rw [lookup_append_right _ hn, hn]
    simp [List.lookup_cons]

theorem groupAppend_lookup_other (g : List (String × List RItem)) (k : String)
    (it : RItem) (k' : String) (hne : k' ≠ k) :
    (groupAppend g k it).lookup k' = g.lookup k' := by
  unfold groupAppend
  split
  · exact lookup_map_set_other k k' (fun l => l ++ [it]) hne g
  · cases hl : g.lookup k' with
    | some l0 => exact lookupAppendLeft _ hl
    | none =>
      rw [lookup_append_right _ hl]
      have : (k' == k) = false := by simpa [beq_iff_eq] using hne
      simp [List.lookup_cons, this]

/-! ### The room-grouping invariant -/

/-- Each room's bucket of `itens_por_sala` is exactly the subsequence of
`export_data` resolving to that room. -/
def salaInv (st : BatchState) : Prop :=
  ∀ sala : String,
    ((st.porSala.lookup sala).getD []) =
      st.exportData.filter (fun it => it.sala == sala)

theorem processItem_salaInv (index : List (String × String)) (st : BatchState)
    (item : String × String) (h : salaInv st) : salaInv (processItem index st item) := by
  rw [processItem_eq]
  intro sala
  by_cases hs : sala = (exportOf index item).sala
  · subst hs
    show ((groupAppend st.porSala _ _).lookup _).getD [] = _
    rw [groupAppend_lookup_self, Option.getD_some, h, List.filter_append]
    have : (List.filter (fun it => it.sala == (exportOf index item).sala)
        [exportOf index item]) = [exportOf index item] := by
      simp [List.filter_cons]
    rw [this]
  · show ((groupAppend st.porSala _ _).lookup sala).getD [] = _
    rw [groupAppend_lookup_other _ _ _ sala hs, h, List.filter_append]
    have : (List.filter (fun it => it.sala == sala) [exportOf index item]) = [] := by
      have : ((exportOf index item).sala == sala) = false := by
        simp [beq_iff_eq]
        exact fun hcon => hs hcon.symm
      simp [List.filter_cons, this]
    rw [this, List.append_nil]

theorem foldl_salaInv (index : List (String × String)) (items : List (String × String))
    (st : BatchState) (h : salaInv st) :
    salaInv (items.foldl (processItem index) st) :=
  foldlPreserve salaInv _ (fun s x hs => processItem_salaInv index s x hs) items st h

/-! ### The found/not-found dictionary (C10) -/

theorem foldl_results_lookup (index : List (String × String)) (t : String) :
    ∀ (items : List (String × String)) (st : BatchState),
      (st.results.lookup t = some (index.lookup t).isSome ∨ ∃ d, (t, d) ∈ items) →
      ((items.foldl (processItem index) st).results.lookup t =
        some (index.lookup t).isSome) := by
  intro items
  induction items with
  | nil =>
    intro st h
    rcases h with h | ⟨d, hd⟩
    · exact h
    · cases hd
  | cons it rest ih =>
    intro st h
    rw [List.foldl_cons]
    by_cases hit : it.1 = t
    · refine ih _ (Or.inl ?_)
      rw [processItem_eq]
      show (dictSet st.results it.1 _).lookup t = _
      rw [hit, dictSet_lookup_self]
    · refine ih _ ?_
      rcases h with h | ⟨d, hd⟩
      · refine Or.inl ?_
        rw [processItem_eq]
        show (dictSet st.results it.1 _).lookup t = _
        rw [dictSet_lookup_other _ _ _ t (fun hc => hit hc.symm)]
        exact h
      · rcases List.mem_cons.mp hd with he | hm
        · exact absurd (congrArg Prod.fst he).symm hit
        · exact Or.inr ⟨d, hm⟩

/-! ## Claim theorems: bulk reconciliation (C2, C3, C10) -/

/-- C3: Reconciliation is deterministic and independent of the progress
machinery: the reconciliation state produced by
`search_items_from_pdf` is the same for any two configurations with
positive batch size — in particular the same on two identical runs, for
any batch size, and whether or not the background progress display is
enabled (`show_progress` and the printed percentages never reach the
data). -/
theorem C3_deterministic (index items : List (String × String)) (cfg₁ cfg₂ : Config)
    (h₁ : cfg₁.batchSize ≠ 0) (h₂ : cfg₂.batchSize ≠ 0) :
    search_items_from_pdf cfg₁ index items = search_items_from_pdf cfg₂ index items := by
  rw [search_items_from_pdf_eq _ _ _ h₁, search_items_from_pdf_eq _ _ _ h₂]

theorem C3_deterministic_witness :
    (demoConfig.batchSize ≠ 0 ∧ (⟨false, true, 2, false⟩ : Config).batchSize ≠ 0)
    ∧ search_items_from_pdf demoConfig reconDemoIndex reconDemoItems =
        search_items_from_pdf ⟨false, true, 2, false⟩ reconDemoIndex reconDemoItems :=
  ⟨⟨by decide, by decide⟩,
   C3_deterministic reconDemoIndex reconDemoItems demoConfig ⟨false, true, 2, false⟩
     (by decide) (by decide)⟩

/-- C10: Bulk reconciliation decides found/not-found by exact,
case-sensitive membership of the extracted identifier among the index
keys, for every configuration (the `partial_match` and `case_sensitive`
settings are ignored): a candidate's entry in `tombamento_results` is
`true` exactly when the identifier, exactly as extracted, equals some
index key. -/
theorem C10_exact_membership (cfg : Config) (index : List (String × String))
    (items : List (String × String)) (t d : String) (hmem : (t, d) ∈ items)
    (hbs : cfg.batchSize ≠ 0) :
    (search_items_from_pdf cfg index items).results.lookup t =
      some (index.lookup t).isSome
    ∧ ((index.lookup t).isSome = true ↔ ∃ v, (t, v) ∈ index) := by
  constructor
  · rw [search_items_from_pdf_eq _ _ _ hbs]
    exact foldl_results_lookup index t items emptyBatchState (Or.inr ⟨d, hmem⟩)
  · exact lookupIsSomeIff index t

theorem C10_exact_membership_witness :
    (("100", "d1") ∈ reconDemoItems ∧ demoConfig.batchSize ≠ 0)
    ∧ (search_items_from_pdf demoConfig reconDemoIndex reconDemoItems).results.lookup "100" =
        some (reconDemoIndex.lookup "100").isSome :=
  ⟨⟨by decide, by decide⟩,
   (C10_exact_membership demoConfig reconDemoIndex reconDemoItems "100" "d1"
     (by decide) (by decide)).1⟩

/-- C2 counterexample: the console rendering of the reconciliation result
groups items by resolved room, so with items resolving to rooms `A`,
`NÃO ENCONTRADO`, `A` the rendering order is `100, 101, 200`, not the
report order `100, 200, 101`; and `tombamento_results` keeps one entry
per distinct identifier, so two candidates sharing an identifier yield
one entry, not two. -/
theorem C2_counterexample :
    renderedTombamentos (search_items_from_pdf demoConfig reconDemoIndex reconDemoItems) ≠
      reconDemoItems.map Prod.fst
    ∧ (search_items_from_pdf demoConfig reconDemoIndex
        [("100", "a"), ("100", "b")]).results.length ≠
      ([("100", "a"), ("100", "b")] : List (String × String)).length := by
  exact ⟨by decide, by decide⟩

/-- C2 (amended): `export_data` has exactly one entry per input candidate
(`len = len`) carrying the candidates' identifiers in report order, and
the console rendering groups entries by resolved room, each room bucket
listing exactly its `export_data` entries in report order
(`tombamento_results`, being a dictionary, holds one entry per distinct
identifier). -/
theorem C2_report_order (cfg : Config) (index items : List (String × String))
    (hbs : cfg.batchSize ≠ 0) :
    (search_items_from_pdf cfg index items).exportData.length = items.length
    ∧ (search_items_from_pdf cfg index items).exportData.map (fun it => it.tombamento) =
        items.map Prod.fst
    ∧ (∀ (sala : String) (l : List RItem),
        (search_items_from_pdf cfg index items).porSala.lookup sala = some l →
        l = (search_items_from_pdf cfg index items).exportData.filter
          (fun it => it.sala == sala)) := by
  rw [search_items_from_pdf_eq _ _ _ hbs]
  refine ⟨?_, ?_, ?_⟩
  · rw [foldl_exportData]
    simp [emptyBatchState]
  · rw [foldl_exportData]
    simp only [emptyBatchState, List.nil_append, List.map_map]
    exact List.map_congr_left (fun item _ => exportOf_tombamento index item)
  · intro sala l hl
    have hinv := foldl_salaInv index items emptyBatchState
      (by intro sala2; simp [emptyBatchState, List.lookup])
    have := hinv sala
    rw [hl, Option.getD_some] at this
    exact this

theorem C2_report_order_witness :
    demoConfig.batchSize ≠ 0
    ∧ (search_items_from_pdf demoConfig reconDemoIndex reconDemoItems).exportData.length =
        reconDemoItems.length :=
  ⟨by decide, (C2_report_order demoConfig reconDemoIndex reconDemoItems (by decide)).1⟩

/-! ## Lemmas for the annotation mapper (C6) -/

theorem sameLine_ne_nil {words : List PWord} {w : PWord} (hw : w ∈ words) :
    words.filter (fun v => v.block = w.block ∧ v.line = w.line) ≠ [] :=
  List.ne_nil_of_mem (List.mem_filter.mpr ⟨hw, by simp⟩)

/-- C6 (amended): one marker is emitted per word whose text contains the
identifier (not per matching text line), each anchored at the fixed
horizontal offset `ICON_X` and at the vertical center of the matched
word's bounding box, drawn as a green checkmark when `found` is true and
as a red cross otherwise (color and glyph depend only on the `found`
flag); when no word of the page matches, no marker is emitted. -/
theorem C6_markers (words : List PWord) (t : String) (found : Bool) :
    (markersForTomb words t found).length =
      (words.filter (fun w => strContains w.text t)).length
    ∧ (∀ (i : Nat) (hi : i < (markersForTomb words t found).length),
        ∃ w ∈ words, strContains w.text t = true ∧
          (markersForTomb words t found).get ⟨i, hi⟩ =
            ⟨ICON_X, (w.y0 + w.y1) / 2, found, (if found then GREEN else RED),
             if found then
               draw_check ICON_X ((w.y0 + w.y1) / 2) ICON_SIZE
                 (if found then GREEN else RED) STROKE
             else
               draw_x ICON_X ((w.y0 + w.y1) / 2) ICON_SIZE
                 (if found then GREEN else RED) STROKE⟩)
    ∧ (words.filter (fun w => strContains w.text t) = [] →
        markersForTomb words t found = []) := by
  refine ⟨?_, ?_, ?_⟩
  · apply lengthFilterMapAllSome
    intro w hw
    have hww : w ∈ words := (List.mem_filter.mp hw).1
    rw [if_neg (sameLine_ne_nil hww)]
    rfl
  · intro i hi
    have hmem : (markersForTomb words t found).get ⟨i, hi⟩ ∈ markersForTomb words t found :=
      List.get_mem _ i hi
    obtain ⟨w, hwf, hfw⟩ := List.mem_filterMap.mp hmem
    have hww : w ∈ words := (List.mem_filter.mp hwf).1
    have hct : strContains w.text t = true := (List.mem_filter.mp hwf).2
    refine ⟨w, hww, hct, ?_⟩
    rw [if_neg (sameLine_ne_nil hww)] at hfw
    exact (Option.some.inj hfw).symm
  · intro hf
    unfold markersForTomb
    rw [hf]
    rfl

theorem C6_markers_witness :
    (∃ hi : 0 < (markersForTomb twoLineWords "123456" true).length,
      ∃ w ∈ twoLineWords, strContains w.text "123456" = true ∧
        (markersForTomb twoLineWords "123456" true).get ⟨0, hi⟩ =
          ⟨ICON_X, (w.y0 + w.y1) / 2, true, (if true then GREEN else RED),
           if true then
             draw_check ICON_X ((w.y0 + w.y1) / 2) ICON_SIZE
               (if true then GREEN else RED) STROKE
           else
             draw_x ICON_X ((w.y0 + w.y1) / 2) ICON_SIZE
               (if true then GREEN else RED) STROKE⟩)
    ∧ markersForTomb ([] : List PWord) "z" true = [] :=
  ⟨⟨by decide, (C6_markers twoLineWords "123456" true).2.1 0 (by decide)⟩,
   (C6_markers ([] : List PWord) "z" true).2.2 (by decide)⟩

/-- C6 counterexample: the claim counts one marker per matching text
line, but the code emits one marker per matching word — with two words on
the same `(block, line)` both containing the identifier, two markers are
emitted for one matching line. -/
theorem C6_counterexample :
    (markersForTomb sameLineWords "123456" true).length ≠
      matchingLineCount sameLineWords "123456" := by
  decide

/-! ## Lemmas for the point lookup (C7) -/

theorem rowEmit_eq_if (cfg : Config) (sv : String) (col : Nat)
    (fp fn sn : String) (ir : Nat × List Cell) :
    rowEmit cfg sv col fp fn sn ir =
      if amendedRowMatches cfg sv col ⟨fp, fn, sn, ir.1, ir.2⟩ then
        [(⟨fp, fn, sn, ir.1, ir.2⟩ : MatchRecord)]
      else [] := by
  by_cases h1 : ir.2.length < 8
  · simp [rowEmit, amendedRowMatches, h1]
  · by_cases h2 : cellMatches cfg sv (ir.2.getD col .pyNone) = true
    · simp [rowEmit, amendedRowMatches, h1, h2]
    · simp only [Bool.not_eq_true] at h2
      simp [rowEmit, amendedRowMatches, h1, h2]

theorem searchSheet_eq (cfg : Config) (sv : String) (col : Nat)
    (fp fn sn : String) (acc : List MatchRecord) (rows : List (List Cell)) :
    searchSheet cfg sv col fp fn sn acc rows =
      acc ++ ((rows.drop 1).enumFrom 2).flatMap (rowEmit cfg sv col fp fn sn) := by
  apply foldlHomAppend
  intro a ir
  unfold rowEmit
  by_cases h1 : ir.2.length < 8
  · rw [if_pos h1, if_pos h1]
    simp
  · rw [if_neg h1, if_neg h1]
    by_cases h2 : cellMatches cfg sv (ir.2.getD col .pyNone) = true
    · rw [if_pos h2, if_pos h2]
    · rw [if_neg h2, if_neg h2]
      simp

theorem sheetFold_eq (cfg : Config) (sv : String) (col : Nat) (fp fn : String)
    (sheets : List Sheet) (acc : List MatchRecord) :
    sheets.foldl (fun acc3 sh => searchSheet cfg sv col fp fn sh.name acc3 sh.rows) acc =
      acc ++ sheets.flatMap (sheetEmit cfg sv col fp fn) := by
  apply foldlHomAppend
  intro a sh
  rw [searchSheet_eq]
  rfl

theorem fileFold_eq (cfg : Config) (sv : String) (col : Nat) (fp : String)
    (files : List XFile) (acc : List MatchRecord) :
    files.foldl
      (fun acc2 f =>
        if f.openable then
          f.sheets.foldl
            (fun acc3 sh => searchSheet cfg sv col fp f.name sh.name acc3 sh.rows) acc2
        else acc2)
      acc = acc ++ files.flatMap (fileEmit cfg sv col fp) := by
  apply foldlHomAppend
  intro a f
  cases ho : f.openable with
  | true => rw [if_pos rfl, sheetFold_eq]; simp [fileEmit, ho]
  | false => simp [fileEmit, ho]

theorem search_items_eq_flatMap (cfg : Config) (folders : List Folder) (col : Nat)
    (value : String) :
    search_items cfg folders col value =
      folders.flatMap (folderEmit cfg (prepSearchValue cfg value) col) := by
  simp only [search_items]
  rw [foldlHomAppend _ (folderEmit cfg (prepSearchValue cfg value) col) ?_ folders []]
  · rfl
  · intro a fo
    cases hp : fo.present with
    | true => rw [if_pos rfl, fileFold_eq]; simp [folderEmit, hp]
    | false => simp [folderEmit, hp]

theorem sheetEmit_filter (cfg : Config) (sv : String) (col : Nat) (fp fn : String)
    (sh : Sheet) :
    sheetEmit cfg sv col fp fn sh =
      (((sh.rows.drop 1).enumFrom 2).map
          (fun ir => (⟨fp, fn, sh.name, ir.1, ir.2⟩ : MatchRecord))).filter
        (amendedRowMatches cfg sv col) := by
  unfold sheetEmit
  rw [show rowEmit cfg sv col fp fn sh.name =
      (fun ir => if amendedRowMatches cfg sv col ⟨fp, fn, sh.name, ir.1, ir.2⟩ then
        [(⟨fp, fn, sh.name, ir.1, ir.2⟩ : MatchRecord)] else []) from
    funext (rowEmit_eq_if cfg sv col fp fn sh.name)]
  rw [flatMapIfSingleton, List.filter_map]
  rfl

/-- C7 (amended): `search_items` compares the (trimmed, optionally
case-folded) query against the selected field of every row that carries
the full 8 positional fields — rows with fewer cells are skipped as
malformed, and both sides of the comparison are whitespace-trimmed
(Python-falsy cells read as empty) — it never stops at the first match,
and it reports exactly the matching rows across all sources, each
annotated with its originating folder, file, sheet and row number, in
source-enumeration order. -/
theorem C7_lookup_scan (cfg : Config) (folders : List Folder) (col : Nat)
    (value : String) :
    search_items cfg folders col value = search_items_amended cfg folders col value := by
  rw [search_items_eq_flatMap]
  unfold search_items_amended allRows
  rw [List.filter_flatMap]
  apply congrArg
  funext fo
  cases hp : fo.present with
  | false => simp [folderEmit, hp]
  | true =>
    simp only [folderEmit, hp, if_true]
    rw [List.filter_flatMap]
    apply congrArg
    funext f
    cases ho : f.openable with
    | false => simp [fileEmit, ho]
    | true =>
      simp only [fileEmit, ho, if_true]
      rw [List.filter_flatMap]
      apply congrArg
      funext sh
      exact sheetEmit_filter cfg (prepSearchValue cfg value) col fo.path f.name sh

/-- C7 counterexample: the claim's "compares the value against the
selected field of every row" fails on the code: a 3-cell row whose
tombamento cell equals the query exactly is skipped (fewer than 8
fields), while an 8-cell row whose cell is the query surrounded by
whitespace is reported (both sides are trimmed before comparison) — so
the reported rows differ from the claim's described output. -/
theorem C7_counterexample :
    search_items demoConfig lookupDemoFolders 2 "QQ" ≠
      search_items_claimed demoConfig lookupDemoFolders 2 "QQ" := by
  decide

end SIC
